import Mathlib

/-!
Verification development for the GCMS analyzer front-end.

The JavaScript sources are shallowly embedded: numbers become `ℚ` (the code
never exercises NaN/Infinity arithmetic on accepted data; `parseFloat`
failures are represented by `Option`), fallible code returns `Except String`,
and the session-wide mutable caches/graph become explicit state passed in and
out of the functions.
-/

/-- A cell of a parsed CSV record, after PapaParse with `dynamicTyping: true`:
a number, a string, or a missing/null value (JS `null`/`undefined` behave the
same for every use in this program: `parseFloat` gives NaN and the
metabolite-name check fails). -/
inductive CellValue where
  | num (q : ℚ)
  | str (s : String)
  | nullv
deriving DecidableEq, Repr

/-- Value of a string of ASCII digits, most significant first. -/
def digitsVal (l : List Char) : ℕ :=
  l.foldl (fun a c => 10 * a + (c.toNat - 48)) 0

/-- Model of the JavaScript `parseFloat` builtin on the decimal forms this
program exercises: optional leading whitespace, an optional sign, then digits
with an optional fractional part; any further characters are ignored.  `none`
stands for NaN (no digits at all).  Exponents and the literal Infinity are not
modelled. -/
def jsParseFloatChars (cs : List Char) : Option ℚ :=
  let cs1 := cs.dropWhile Char.isWhitespace
  let sign : ℚ := if cs1.head? = some '-' then -1 else 1
  let cs2 := if cs1.head? = some '-' ∨ cs1.head? = some '+' then cs1.tail else cs1
  let intDigits := cs2.takeWhile Char.isDigit
  let rest := cs2.dropWhile Char.isDigit
  let fracDigits := if rest.head? = some '.' then rest.tail.takeWhile Char.isDigit else []
  if intDigits.isEmpty ∧ fracDigits.isEmpty then none
  else some (sign * ((digitsVal intDigits : ℚ) +
    (digitsVal fracDigits : ℚ) / (10 : ℚ) ^ fracDigits.length))

/-- The `parseFloat` coercion applied to a dynamically typed CSV cell:
numbers pass through, strings are parsed, null/undefined give NaN (`none`). -/
def jsParseFloat : CellValue → Option ℚ
  | .num q => some q
  | .str s => jsParseFloatChars s.data
  | .nullv => none

/-- JavaScript `toLowerCase()` on the ASCII names this program uses, as a
character-level map (extensionally `String.toLower`, but stated on the
character list so that concrete instances evaluate by `decide`). -/
def jsToLower (s : String) : String :=
  ⟨s.data.map Char.toLower⟩

/-- JavaScript `trim()`: strips leading and trailing whitespace. -/
def jsTrim (s : String) : String :=
  ⟨((s.data.dropWhile Char.isWhitespace).reverse.dropWhile Char.isWhitespace).reverse⟩

instance instDecEqExcept {ε α : Type} [DecidableEq ε] [DecidableEq α] :
    DecidableEq (Except ε α) := fun a b =>
  match a, b with
  | .ok x, .ok y =>
      if h : x = y then isTrue (by rw [h])
      else isFalse (by intro hc; cases hc; exact h rfl)
  | .error x, .error y =>
      if h : x = y then isTrue (by rw [h])
      else isFalse (by intro hc; cases hc; exact h rfl)
  | .ok _, .error _ => isFalse (by intro hc; cases hc)
  | .error _, .ok _ => isFalse (by intro hc; cases hc)

/-- The normalized row object built by `FileHandler.validateData`:
`{name, retentionTime, intensity, additionalData}`. -/
structure MeasurementRow where
  name : String
  retentionTime : ℚ
  intensity : ℚ
  additionalData : List (String × CellValue)
deriving DecidableEq, Repr

/-- A parsed CSV record: the header-keyed object PapaParse produces, with the
keys in header order. -/
abbrev CsvRecord := List (String × CellValue)

/-- JS property access `row[key]`: the first binding for `key`, or
undefined (here `nullv`) when absent. -/
def getCell : CsvRecord → String → CellValue
  | [], _ => .nullv
  | (k, v) :: t, key => if k = key then v else getCell t key

/-- Property access through an `Option`al key, as in
`row[columnMapping.RetentionTime]` where the mapping entry may be undefined. -/
def getCellOpt (row : CsvRecord) : Option String → CellValue
  | some k => getCell row k
  | none => .nullv

namespace ChromatogramAnalyzer

/-- Output of `ChromatogramAnalyzer.extractChromatogramData`: parallel arrays
of retention time, intensity and metabolite label. -/
structure ChromatogramData where
  times : List ℚ
  intensities : List ℚ
  labels : List String
deriving DecidableEq, Repr

/-- Output of `ChromatogramAnalyzer.extractMassSpectraData`: metabolite names
with their mean intensities, in parallel arrays. -/
structure MassSpectraData where
  metabolites : List String
  intensities : List ℚ
deriving DecidableEq, Repr

/-- Comparator key order used by `extractChromatogramData`:
`(a, b) => a.retentionTime - b.retentionTime`. -/
def retentionLE (a b : MeasurementRow) : Prop :=
  a.retentionTime ≤ b.retentionTime

instance : DecidableRel retentionLE :=
  fun a b => inferInstanceAs (Decidable (a.retentionTime ≤ b.retentionTime))

instance : IsTotal MeasurementRow retentionLE :=
  ⟨fun a b => le_total a.retentionTime b.retentionTime⟩

instance : IsTrans MeasurementRow retentionLE :=
  ⟨fun _ _ _ h h' => le_trans h h'⟩

/-- The sorting step `[...data].sort((a, b) => a.retentionTime - b.retentionTime)`.
ECMAScript requires `Array.prototype.sort` to be stable and, with this
comparator, to produce an order that is non-decreasing in `retentionTime`;
insertion sort on the key's `≤` is extensionally that unique stable sort. -/
def sortedByRetentionTime (data : List MeasurementRow) : List MeasurementRow :=
  List.insertionSort retentionLE data

/-- `ChromatogramAnalyzer.extractChromatogramData`. -/
def extractChromatogramData (data : List MeasurementRow) : ChromatogramData :=
  let sortedData := sortedByRetentionTime data
  { times := sortedData.map (·.retentionTime)
    intensities := sortedData.map (·.intensity)
    labels := sortedData.map (·.name) }

/-- One step of the JS `Map` building in `extractMassSpectraData`:
`map.get(name).push(intensity)` on the first entry with that key, or a new
`(name, [intensity])` entry appended at the end (JS `Map` insertion order). -/
def updateGroup : List (String × List ℚ) → String → ℚ → List (String × List ℚ)
  | [], n, v => [(n, [v])]
  | (k, vs) :: t, n, v =>
      if k = n then (k, vs ++ [v]) :: t else (k, vs) :: updateGroup t n v

/-- The `intensityMap` built by `extractMassSpectraData`: groups intensities by
metabolite name, keys in first-seen order. -/
def intensityMap (data : List MeasurementRow) : List (String × List ℚ) :=
  data.foldl (fun acc r => updateGroup acc r.name r.intensity) []

/-- `ChromatogramAnalyzer.extractMassSpectraData`: names in map order, each
with the arithmetic mean of its group. -/
def extractMassSpectraData (data : List MeasurementRow) : MassSpectraData :=
  { metabolites := (intensityMap data).map Prod.fst
    intensities := (intensityMap data).map (fun g => g.2.sum / (g.2.length : ℚ)) }

/-- `ChromatogramAnalyzer.extractMetabolites`: the first row seen for each
distinct name, in first-seen order (JS `Map` insertion order). -/
def extractMetabolites (data : List MeasurementRow) : List MeasurementRow :=
  data.foldl
    (fun acc r => if r.name ∈ acc.map (·.name) then acc else acc ++ [r]) []

/-- The three derived datasets returned by `ChromatogramAnalyzer.processData`. -/
structure ProcessedData where
  chromatogramData : ChromatogramData
  massSpectraData : MassSpectraData
  metabolites : List MeasurementRow
deriving DecidableEq, Repr

/-- `ChromatogramAnalyzer.processData`: runs the three extractors inside a
try/catch whose catch clause logs and rethrows the error unchanged.  On any
well-typed array of rows the extractors are total, so no error is produced;
the `Except` codomain records the raise-or-return outcome. -/
def processData (data : List MeasurementRow) : Except String ProcessedData :=
  .ok { chromatogramData := extractChromatogramData data
        massSpectraData := extractMassSpectraData data
        metabolites := extractMetabolites data }

/-- `Math.max(...intensities)`.  JS yields -Infinity on an empty spread; the
peak scan below is empty whenever the list has fewer than three entries, so
the empty case is never consulted and is mapped to `0` here. -/
def jsMax : List ℚ → ℚ
  | [] => 0
  | x :: xs => xs.foldl max x

/-- `ChromatogramAnalyzer.findPeaks`: indices `i` from `1` to `length - 2`, in
order, whose intensity exceeds `maxIntensity * threshold` and both neighbours.
The JS default for `threshold` is `0.1`. -/
def findPeaks (intensities : List ℚ) (threshold : ℚ) : List ℕ :=
  let maxIntensity := jsMax intensities
  let minPeakHeight := maxIntensity * threshold
  (List.range' 1 (intensities.length - 1 - 1)).filter fun i =>
    decide (intensities.getD i 0 > minPeakHeight ∧
      intensities.getD i 0 > intensities.getD (i - 1) 0 ∧
      intensities.getD i 0 > intensities.getD (i + 1) 0)

/-- `ChromatogramAnalyzer.calculateArea`: the trapezoidal loop
`for (i = 1; i < times.length; i++) area += dt * avgIntensity`. -/
def calculateArea (times intensities : List ℚ) : ℚ :=
  (List.range' 1 (times.length - 1)).foldl
    (fun area i =>
      area + (times.getD i 0 - times.getD (i - 1) 0) *
        ((intensities.getD i 0 + intensities.getD (i - 1) 0) / 2)) 0

end ChromatogramAnalyzer

namespace FileHandler

/-- The required column set of `FileHandler.validateData`. -/
def requiredColumns : List String :=
  ["Metabolite", "RetentionTime", "Intensity"]

/-- The `columnMapping` object: for each required column, the first header
whose lowercasing matches (original case preserved), if any. -/
structure ColumnMapping where
  metabolite : Option String
  retentionTime : Option String
  intensity : Option String
deriving DecidableEq, Repr

/-- Headers of the parsed data: `Object.keys(data[0])` (empty if no rows). -/
def headersOf (data : List CsvRecord) : List String :=
  match data with
  | [] => []
  | first :: _ => first.map Prod.fst

/-- The required columns absent from the (case-insensitively matched) header. -/
def missingColumns (data : List CsvRecord) : List String :=
  requiredColumns.filter fun c =>
    decide (jsToLower c ∉ (headersOf data).map jsToLower)

/-- The `columnMapping` computed by `validateData` via
`headers.find(h => h.toLowerCase() === ...)`. -/
def columnMapping (data : List CsvRecord) : ColumnMapping :=
  let headers := headersOf data
  { metabolite := headers.find? fun h => jsToLower h = "metabolite"
    retentionTime := headers.find? fun h => jsToLower h = "retentiontime"
    intensity := headers.find? fun h => jsToLower h = "intensity" }

/-- Per-record body of the `data.map((row, index) => ...)` in `validateData`:
coerces retention time and intensity with `parseFloat` (rejecting NaN),
requires the metabolite cell to be a truthy string, and keeps every column
not in the mapping as additional data.  A thrown message gets the
`Row ${index + 1}: ` prosthesis added by the surrounding catch. -/
def processRow (m : ColumnMapping) (index : ℕ) (row : CsvRecord) :
    Except String MeasurementRow :=
  match jsParseFloat (getCellOpt row m.retentionTime) with
  | none => .error s!"Row {index + 1}: Invalid retention time at row {index + 1}"
  | some rt =>
    match jsParseFloat (getCellOpt row m.intensity) with
    | none => .error s!"Row {index + 1}: Invalid intensity value at row {index + 1}"
    | some inten =>
      match getCellOpt row m.metabolite with
      | .str s =>
        if s = "" then
          .error s!"Row {index + 1}: Invalid or missing metabolite name at row {index + 1}"
        else
          .ok { name := jsTrim s
                retentionTime := rt
                intensity := inten
                additionalData := row.filter fun kv =>
                  decide ¬(m.metabolite = some kv.1 ∨ m.retentionTime = some kv.1 ∨
                    m.intensity = some kv.1) }
      | _ =>
        .error s!"Row {index + 1}: Invalid or missing metabolite name at row {index + 1}"

/-- The `data.map` of `validateData`: JS `map` whose callback throws aborts at
the first failing record. -/
def validateRows (m : ColumnMapping) : ℕ → List CsvRecord →
    Except String (List MeasurementRow)
  | _, [] => .ok []
  | i, r :: rs =>
    match processRow m i r with
    | .error e => .error e
    | .ok x =>
      match validateRows m (i + 1) rs with
      | .error e => .error e
      | .ok xs => .ok (x :: xs)

/-- `FileHandler.validateData`: empty-input check, required-column check
(case-insensitive), then per-record normalization. -/
def validateData (data : List CsvRecord) : Except String (List MeasurementRow) :=
  if data.isEmpty then .error "The file appears to be empty."
  else if missingColumns data ≠ [] then
    .error ("Missing required columns: " ++ String.intercalate ", " (missingColumns data))
  else validateRows (columnMapping data) 0 data

end FileHandler

namespace PubChemIntegration

/-- The compound record cached and returned by `fetchCompoundInfo` (the
asynchronous property/SMILES enrichment is outside this model; the claims
below concern the not-found path and cache hits, which the enrichment never
touches). -/
structure CompoundInfo where
  id : String
  name : String
  url : Option String
deriving DecidableEq, Repr

/-- The session cache `PubChemIntegration.#cache`, a JS `Map` keyed by
compound name. -/
abbrev Cache := List (String × CompoundInfo)

/-- `Map.get` on the cache. -/
def cacheGet : Cache → String → Option CompoundInfo
  | [], _ => none
  | (k, v) :: t, key => if k = key then some v else cacheGet t key

/-- `Map.set` on the cache: replace the existing entry or append a new one. -/
def cacheSet : Cache → String → CompoundInfo → Cache
  | [], key, v => [(key, v)]
  | (k, v') :: t, key, v =>
      if k = key then (key, v) :: t else (k, v') :: cacheSet t key v

/-- Outcome of one `fetchCompoundInfo` call: the returned object, the cache
after the call, and how many outbound requests the call enqueued on the rate
limiter (the `searchCompound` lookup; background enrichment requests are not
counted, they only occur on the CID-found path). -/
structure FetchResult where
  result : CompoundInfo
  cache : Cache
  requestsIssued : ℕ
deriving DecidableEq, Repr

/-- `PubChemIntegration.fetchCompoundInfo`, with the network's answer to the
identifier search supplied as `searchOutcome` (`none` models both an empty
identifier list and a failed request, which `searchCompound` maps to `null`).
The function never throws: its own try/catch degrades any error to an
`"Error"` record, and in this embedding no branch errors at all. -/
def fetchCompoundInfo (cache : Cache) (compoundName : String)
    (searchOutcome : Option String) : FetchResult :=
  match cacheGet cache compoundName with
  | some cached => { result := cached, cache := cache, requestsIssued := 0 }
  | none =>
    match searchOutcome with
    | none =>
        let result : CompoundInfo := { id := "Not found", name := compoundName, url := none }
        { result := result
          cache := cacheSet cache compoundName result
          requestsIssued := 1 }
    | some cid =>
        let result : CompoundInfo :=
          { id := cid, name := compoundName
            url := some ("https://pubchem.ncbi.nlm.nih.gov/compound/" ++ cid) }
        { result := result
          cache := cacheSet cache compoundName result
          requestsIssued := 1 }

end PubChemIntegration

namespace NetworkVisualizer

/-- Element kinds used by the pathway graph builder. -/
inductive ElementType where
  | metabolite
  | gene
  | pathway
  | reaction
deriving DecidableEq, Repr

/-- A cytoscape node: `{id, label, type}`. -/
structure NodeData where
  id : String
  label : String
  type : ElementType
deriving DecidableEq, Repr

/-- A cytoscape edge: `{id, source, target, label}`. -/
structure EdgeData where
  id : String
  source : String
  target : String
  label : String
deriving DecidableEq, Repr

/-- The accumulated pathway graph (the cytoscape element collection). -/
structure Graph where
  nodes : List NodeData
  edges : List EdgeData
deriving DecidableEq, Repr

/-- The graph before any metabolite is added. -/
def emptyGraph : Graph := { nodes := [], edges := [] }

/-- All element ids; cytoscape nodes and edges share one id namespace. -/
def elementIds (g : Graph) : List String :=
  g.nodes.map (·.id) ++ g.edges.map (·.id)

/-- Modelled from the spec: `cy.add` for a node in the external graph library
(cytoscape, not part of src/) — "re-adding an existing id is a no-op". -/
def addNode (g : Graph) (n : NodeData) : Graph :=
  if n.id ∈ elementIds g then g else { g with nodes := g.nodes ++ [n] }

/-- Modelled from the spec: `cy.add` for an edge — idempotent by id. -/
def addEdge (g : Graph) (e : EdgeData) : Graph :=
  if e.id ∈ elementIds g then g else { g with edges := g.edges ++ [e] }

/-- The `{metabolite, pathway, reactions}` record returned by
`MetaboliteMapper.getPathwayInformation` (a `None` result skips
`addPathwayConnections` entirely). -/
structure PathwayInfo where
  metabolite : String
  pathway : String
  reactions : List String
deriving DecidableEq, Repr

/-- One iteration of the `reactions.forEach((reaction, index) => ...)` body in
`addPathwayConnections`. -/
def addReactionStep (metabolite : String) (g : Graph) (p : ℕ × String) : Graph :=
  let reactionId := "r_" ++ metabolite ++ "_" ++ toString p.1
  let g1 := addNode g { id := reactionId, label := p.2, type := .reaction }
  addEdge g1
    { id := "e_" ++ metabolite ++ "_reaction_" ++ toString p.1
      source := "m_" ++ metabolite
      target := reactionId
      label := "participates in" }

/-- `NetworkVisualizer.addPathwayConnections`: pathway node (added only after
an explicit `$id` existence check), metabolite→pathway edge, and one reaction
node and edge per listed reaction, ids disambiguated by metabolite and index.
The JS truthiness test `if (pathway)` is the emptiness test here. -/
def addPathwayConnections (g : Graph) (pinfo : PathwayInfo) : Graph :=
  let g1 :=
    if pinfo.pathway ≠ "" then
      let g' :=
        if ("p_" ++ pinfo.pathway) ∈ elementIds g then g
        else addNode g { id := "p_" ++ pinfo.pathway, label := pinfo.pathway, type := .pathway }
      addEdge g'
        { id := "e_" ++ pinfo.metabolite ++ "_" ++ pinfo.pathway
          source := "m_" ++ pinfo.metabolite
          target := "p_" ++ pinfo.pathway
          label := "part of" }
    else g
  pinfo.reactions.enum.foldl (addReactionStep pinfo.metabolite) g1

/-- `NetworkVisualizer.addMetaboliteToPathway`: metabolite node, gene node,
the edge between them, then the pathway connections for whatever
`getPathwayInformation` returned for this metabolite (deterministic in the
name, so identical calls pass identical `pinfo`). -/
def addMetaboliteToPathway (g : Graph) (metaboliteName geneLocusId : String)
    (pinfo : Option PathwayInfo) : Graph :=
  let g1 := addNode g
    { id := "m_" ++ metaboliteName, label := metaboliteName, type := .metabolite }
  let g2 := addNode g1
    { id := "g_" ++ geneLocusId, label := geneLocusId, type := .gene }
  let g3 := addEdge g2
    { id := "e_" ++ metaboliteName ++ "_" ++ geneLocusId
      source := "m_" ++ metaboliteName
      target := "g_" ++ geneLocusId
      label := "associated with" }
  match pinfo with
  | some pi => addPathwayConnections g3 pi
  | none => g3

end NetworkVisualizer

/-- First-match lookup in the grouping association list (the JS `Map.get`). -/
def lookupGroup : List (String × List ℚ) → String → List ℚ
  | [], _ => []
  | (k, vs) :: t, n => if k = n then vs else lookupGroup t n

/-- Modelled from the spec: first-seen deduplication — the order of names
produced by "group rows by metabolite name ... order of names = first-seen
order during grouping". -/
def dedupFirst : List String → List String
  | [] => []
  | x :: xs => x :: dedupFirst (xs.filter fun y => decide ¬(y = x))
termination_by l => l.length
decreasing_by
  simpa using Nat.lt_succ_of_le (List.length_filter_le _ _)

/-- Modelled from the spec: the intensities of the rows bearing a given
metabolite name, in input order — the group whose arithmetic mean the spec
prescribes. -/
def groupIntensities (data : List MeasurementRow) (n : String) : List ℚ :=
  (data.filter fun r => decide (r.name = n)).map (·.intensity)

open ChromatogramAnalyzer FileHandler PubChemIntegration NetworkVisualizer

theorem mem_findPeaks {l : List ℚ} {τ : ℚ} {i : ℕ} :
    i ∈ findPeaks l τ ↔
      1 ≤ i ∧ i + 1 < l.length ∧ l.getD i 0 > τ * jsMax l ∧
        l.getD i 0 > l.getD (i - 1) 0 ∧ l.getD i 0 > l.getD (i + 1) 0 := by
  unfold findPeaks
  simp only [List.mem_filter, List.mem_range'_1, decide_eq_true_eq]
  constructor
  · rintro ⟨⟨h1, h2⟩, h3, h4, h5⟩
    exact ⟨h1, by omega, by rwa [mul_comm], h4, h5⟩
  · rintro ⟨h1, h2, h3, h4, h5⟩
    exact ⟨⟨h1, by omega⟩, by rwa [mul_comm], h4, h5⟩

/-- Claim C2: `findPeaks` returns exactly the ascending list of interior
indices whose intensity exceeds the threshold fraction of the maximum and
strictly exceeds both neighbours; endpoints are never returned (the
characterizing bounds `1 ≤ i` and `i + 1 < n` exclude `0` and `n - 1`);
`[1,1,5,1,1]` at the default threshold `0.1` yields exactly index 2, and a
strictly monotonic sequence yields no peaks. -/
theorem findPeaks_correct :
    (∀ (l : List ℚ) (τ : ℚ), List.Pairwise (· < ·) (findPeaks l τ)) ∧
    (∀ (l : List ℚ) (τ : ℚ) (i : ℕ),
      i ∈ findPeaks l τ ↔
        1 ≤ i ∧ i + 1 < l.length ∧ l.getD i 0 > τ * jsMax l ∧
          l.getD i 0 > l.getD (i - 1) 0 ∧ l.getD i 0 > l.getD (i + 1) 0) ∧
    findPeaks [1, 1, 5, 1, 1] (1 / 10) = [2] ∧
    (∀ (l : List ℚ) (τ : ℚ),
      ((∀ j, j + 1 < l.length → l.getD j 0 < l.getD (j + 1) 0) ∨
        (∀ j, j + 1 < l.length → l.getD (j + 1) 0 < l.getD j 0)) →
      findPeaks l τ = []) := by
  refine ⟨fun l τ => ?_, fun l τ i => mem_findPeaks,
    by norm_num [findPeaks, jsMax, List.range'], fun l τ h => ?_⟩
  · exact List.Pairwise.sublist (List.filter_sublist _) (List.pairwise_lt_range' _ _)
  · rw [List.eq_nil_iff_forall_not_mem]
    intro i hi
    rcases mem_findPeaks.mp hi with ⟨h1, h2, _, h4, h5⟩
    rcases h with hinc | hdec
    · exact absurd (hinc i h2) (not_lt.mpr (le_of_lt h5))
    · have hi1 : i - 1 + 1 < l.length := by omega
      have := hdec (i - 1) hi1
      rw [show i - 1 + 1 = i from by omega] at this
      exact absurd this (not_lt.mpr (le_of_lt h4))

/-- Witness for C2: the strictly-monotonic conjunct applied at a concrete
strictly increasing sequence. -/
theorem findPeaks_correct_witness : findPeaks [1, 2, 3, 4] (1 / 10) = [] := by
  refine findPeaks_correct.2.2.2 [1, 2, 3, 4] (1 / 10) (Or.inl ?_)
  intro j hj
  have : j = 0 ∨ j = 1 ∨ j = 2 := by simp at hj; omega
  rcases this with rfl | rfl | rfl <;> decide

theorem foldl_add_eq_sum (l : List ℕ) (f : ℕ → ℚ) (init : ℚ) :
    l.foldl (fun a i => a + f i) init = init + (l.map f).sum := by
  induction l generalizing init with
  | nil => simp
  | cons x xs ih => simp [ih, add_assoc]

theorem sum_map_range (n : ℕ) (f : ℕ → ℚ) :
    ((List.range n).map f).sum = ∑ i ∈ Finset.range n, f i := by
  induction n with
  | zero => simp
  | succ m ih => simp [List.range_succ, Finset.sum_range_succ, ih]

/-- Claim C3: `calculateArea` is the trapezoidal sum
`Σ (t[i] - t[i-1]) × (I[i] + I[i-1]) / 2` for equal-length time-sorted inputs
with at least two points, returns 0 for fewer than two points, and gives 10 on
the points (0,0), (1,10), (2,0). -/
theorem calculateArea_correct :
    (∀ (times intensities : List ℚ),
      times.length = intensities.length → 2 ≤ times.length →
      List.Sorted (· ≤ ·) times →
      calculateArea times intensities =
        ∑ i ∈ Finset.range (times.length - 1),
          (times.getD (i + 1) 0 - times.getD i 0) *
            ((intensities.getD (i + 1) 0 + intensities.getD i 0) / 2)) ∧
    (∀ (times intensities : List ℚ), times.length < 2 →
      calculateArea times intensities = 0) ∧
    calculateArea [0, 1, 2] [0, 10, 0] = 10 := by
  have key : ∀ (times intensities : List ℚ),
      calculateArea times intensities =
        ∑ i ∈ Finset.range (times.length - 1),
          (times.getD (i + 1) 0 - times.getD i 0) *
            ((intensities.getD (i + 1) 0 + intensities.getD i 0) / 2) := by
    intro times intensities
    unfold calculateArea
    rw [foldl_add_eq_sum, List.range'_eq_map_range, List.map_map, sum_map_range,
      zero_add]
    refine Finset.sum_congr rfl fun i _ => ?_
    simp only [Function.comp_apply]
    rw [show 1 + i = i + 1 from Nat.add_comm 1 i]
    simp
  refine ⟨fun t ints _ _ _ => key t ints, fun t ints h => ?_, ?_⟩
  · rw [key]
    have : t.length - 1 = 0 ∨ t.length - 1 = 0 ∨ t.length = 1 := by omega
    interval_cases h' : t.length <;> simp
  · rw [key]; norm_num [Finset.sum_range_succ, List.getD]

/-- Witness for C3: the trapezoidal-sum conjunct applied to the concrete
points (0,0), (1,10), (2,0). -/
theorem calculateArea_correct_witness :
    calculateArea [0, 1, 2] [0, 10, 0] =
      ∑ i ∈ Finset.range (([0, 1, 2] : List ℚ).length - 1),
        (([0, 1, 2] : List ℚ).getD (i + 1) 0 - ([0, 1, 2] : List ℚ).getD i 0) *
          ((([0, 10, 0] : List ℚ).getD (i + 1) 0 + ([0, 10, 0] : List ℚ).getD i 0) / 2) :=
  calculateArea_correct.1 [0, 1, 2] [0, 10, 0] rfl (by norm_num) (by decide)

/-- Claim C9, counterexample: the Derived-Metrics Computer given the empty
series does not propagate an exception — `processData []` returns a normal
(`ok`) result with empty outputs, not an error. -/
theorem processData_empty_no_exception :
    processData [] =
      .ok { chromatogramData := { times := [], intensities := [], labels := [] }
            massSpectraData := { metabolites := [], intensities := [] }
            metabolites := [] } := rfl

/-- Claim C9, amended: `processData` performs no recovery — it returns the
three derived datasets unchanged — but a well-typed empty series is not
malformed: it yields empty chromatogram, mass-spectra and metabolite outputs
without raising, and `findPeaks` on an empty intensity sequence likewise
returns no peaks rather than raising. -/
theorem processData_no_recovery :
    (∀ data, processData data =
      .ok { chromatogramData := extractChromatogramData data
            massSpectraData := extractMassSpectraData data
            metabolites := extractMetabolites data }) ∧
    processData [] =
      .ok { chromatogramData := { times := [], intensities := [], labels := [] }
            massSpectraData := { metabolites := [], intensities := [] }
            metabolites := [] } ∧
    (∀ τ, findPeaks [] τ = []) :=
  ⟨fun _ => rfl, rfl, fun _ => rfl⟩

theorem cacheGet_cacheSet (c : Cache) (k : String) (v : CompoundInfo) :
    cacheGet (cacheSet c k v) k = some v := by
  induction c with
  | nil => simp [cacheSet, cacheGet]
  | cons kv t ih =>
    by_cases h : kv.1 = k <;> simp [cacheSet, cacheGet, h, ih]

/-- Claim C7: when the identifier search resolves no CID,
`fetchCompoundInfo` returns a result with id "Not found" carrying the queried
name (the embedding is total, so no exception), caches that result, and every
subsequent call for the same name — whatever the network would now answer —
returns the cached object and enqueues no outbound request. -/
theorem fetchCompoundInfo_notfound_cached (cache : Cache) (name : String)
    (h : cacheGet cache name = none) :
    (fetchCompoundInfo cache name none).result =
      { id := "Not found", name := name, url := none } ∧
    (fetchCompoundInfo cache name none).requestsIssued = 1 ∧
    cacheGet (fetchCompoundInfo cache name none).cache name =
      some (fetchCompoundInfo cache name none).result ∧
    (∀ outcome, fetchCompoundInfo (fetchCompoundInfo cache name none).cache name outcome =
      { result := (fetchCompoundInfo cache name none).result
        cache := (fetchCompoundInfo cache name none).cache
        requestsIssued := 0 }) := by
  have hres : fetchCompoundInfo cache name none =
      { result := { id := "Not found", name := name, url := none }
        cache := cacheSet cache name { id := "Not found", name := name, url := none }
        requestsIssued := 1 } := by
    simp [fetchCompoundInfo, h]
  refine ⟨by rw [hres], by rw [hres], by rw [hres]; exact cacheGet_cacheSet _ _ _, ?_⟩
  intro outcome
  rw [hres]
  simp [fetchCompoundInfo, cacheGet_cacheSet]

/-- Witness for C7: a concrete not-found lookup from the empty cache and the
subsequent cache hit. -/
theorem fetchCompoundInfo_notfound_cached_witness :
    (fetchCompoundInfo [] "Glucose" none).result =
      { id := "Not found", name := "Glucose", url := none } ∧
    fetchCompoundInfo (fetchCompoundInfo [] "Glucose" none).cache "Glucose" (some "5793") =
      { result := (fetchCompoundInfo [] "Glucose" none).result
        cache := (fetchCompoundInfo [] "Glucose" none).cache
        requestsIssued := 0 } := by
  have h := fetchCompoundInfo_notfound_cached [] "Glucose" rfl
  exact ⟨h.1, h.2.2.2 (some "5793")⟩

theorem processRow_ok_fields {m : ColumnMapping} {i : ℕ} {row : CsvRecord}
    {x : MeasurementRow} (h : processRow m i row = .ok x) :
    (∃ s, getCellOpt row m.metabolite = .str s ∧ s ≠ "" ∧ x.name = jsTrim s) ∧
    jsParseFloat (getCellOpt row m.retentionTime) = some x.retentionTime ∧
    jsParseFloat (getCellOpt row m.intensity) = some x.intensity := by
  unfold processRow at h
  split at h
  · exact absurd h (by simp)
  · rename_i rt hrt
    split at h
    · exact absurd h (by simp)
    · rename_i inten hint
      split at h
      · rename_i s hs
        split at h
        · exact absurd h (by simp)
        · rename_i hne
          injection h with h'
          subst h'
          exact ⟨⟨s, hs, hne, rfl⟩, hrt, hint⟩
      · exact absurd h (by simp)

theorem validateRows_ok_mem {m : ColumnMapping} :
    ∀ {i : ℕ} {l : List CsvRecord} {rows : List MeasurementRow},
      validateRows m i l = .ok rows →
      (∀ x ∈ rows, ∃ j r, processRow m j r = .ok x) ∧
      (∀ r ∈ l, ∃ j x, processRow m j r = .ok x) := by
  intro i l
  induction l generalizing i with
  | nil =>
    intro rows h
    have : rows = [] := by
      simpa [validateRows] using h
    subst this
    simp
  | cons r rs ih =>
    intro rows h
    simp only [validateRows] at h
    cases hp : processRow m i r with
    | error e =>
      rw [hp] at h
      simp at h
    | ok x =>
      rw [hp] at h
      cases hv : validateRows m (i + 1) rs with
      | error e =>
        rw [hv] at h
        simp at h
      | ok xs =>
        rw [hv] at h
        simp only [Except.ok.injEq] at h
        subst h
        obtain ⟨ih1, ih2⟩ := ih hv
        refine ⟨fun y hy => ?_, fun r' hr' => ?_⟩
        · rcases List.mem_cons.mp hy with rfl | hy'
          · exact ⟨i, r, hp⟩
          · exact ih1 y hy'
        · rcases List.mem_cons.mp hr' with rfl | hr''
          · exact ⟨i, x, hp⟩
          · exact ih2 r' hr''

theorem validateData_ok_rows {data : List CsvRecord} {rows : List MeasurementRow}
    (h : validateData data = .ok rows) :
    validateRows (columnMapping data) 0 data = .ok rows := by
  unfold validateData at h
  split at h
  · simp at h
  · split at h
    · simp at h
    · exact h

/-- Claim C1, counterexample: the validator accepts a CSV row whose retention
time is the negative number -1 and produces a `MeasurementRow` with
`retentionTime = -1`, which is not `> 0`; so the claimed invariant
(`retentionTime > 0` for every produced row, violating rows rejected) fails. -/
theorem validateData_accepts_nonpositive_values :
    validateData
        [[("Metabolite", CellValue.str "Alanine"), ("RetentionTime", CellValue.num (-1)),
          ("Intensity", CellValue.num 5)]] =
      .ok [{ name := "Alanine", retentionTime := -1, intensity := 5, additionalData := [] }] ∧
    ¬((-1 : ℚ) > 0) :=
  ⟨by decide, by norm_num⟩

/-- Claim C1, amended: every row produced by an accepted CSV has a retention
time and an intensity that are the successful `parseFloat` values of their
cells (numbers, not NaN) and a name obtained by trimming a non-empty string
cell; conversely, every record of an accepted CSV passes those checks — so a
CSV with a non-parsing retention time or intensity cell, or a metabolite cell
that is not a non-empty string, is rejected.  Positivity of the retention
time, non-negativity of the intensity, and non-emptiness of the trimmed name
are not enforced. -/
theorem validateData_ok_invariant (data : List CsvRecord) (rows : List MeasurementRow)
    (h : validateData data = .ok rows) :
    (∀ x ∈ rows, ∃ s, s ≠ "" ∧ x.name = jsTrim s) ∧
    (∀ rec ∈ data,
      (jsParseFloat (getCellOpt rec (columnMapping data).retentionTime)).isSome ∧
      (jsParseFloat (getCellOpt rec (columnMapping data).intensity)).isSome ∧
      ∃ s, getCellOpt rec (columnMapping data).metabolite = .str s ∧ s ≠ "") := by
  obtain ⟨h1, h2⟩ := validateRows_ok_mem (validateData_ok_rows h)
  constructor
  · intro x hx
    obtain ⟨j, r, hjr⟩ := h1 x hx
    obtain ⟨⟨s, _, hs, hname⟩, _, _⟩ := processRow_ok_fields hjr
    exact ⟨s, hs, hname⟩
  · intro rec hrec
    obtain ⟨j, x, hjx⟩ := h2 rec hrec
    obtain ⟨⟨s, hcell, hs, _⟩, hrt, hint⟩ := processRow_ok_fields hjx
    exact ⟨by rw [hrt]; rfl, by rw [hint]; rfl, s, hcell, hs⟩

/-- Witness for the amended C1: a concretely accepted one-row CSV, whose
produced name comes from a non-empty string cell. -/
theorem validateData_ok_invariant_witness :
    ∃ s, s ≠ "" ∧ ("Alanine" : String) = jsTrim s := by
  have h := validateData_ok_invariant
    [[("Metabolite", CellValue.str "Alanine"), ("RetentionTime", CellValue.num 2),
      ("Intensity", CellValue.num 3)]]
    [{ name := "Alanine", retentionTime := 2, intensity := 3, additionalData := [] }]
    (by decide)
  simpa using h.1 _ (List.mem_singleton.mpr rfl)

theorem validateRows_first_error (m : ColumnMapping) :
    ∀ (pre : List CsvRecord) (i : ℕ) (rec : CsvRecord) (post : List CsvRecord) (e : String),
      (∃ xs, validateRows m i pre = .ok xs) →
      processRow m (i + pre.length) rec = .error e →
      validateRows m i (pre ++ rec :: post) = .error e := by
  intro pre
  induction pre with
  | nil =>
    intro i rec post e _ herr
    simp only [List.length_nil, Nat.add_zero] at herr
    rw [List.nil_append]
    simp only [validateRows]
    rw [herr]
  | cons r0 pre' ih =>
    intro i rec post e hok herr
    obtain ⟨xs, hxs⟩ := hok
    simp only [validateRows] at hxs
    cases hp : processRow m i r0 with
    | error e' => rw [hp] at hxs; simp at hxs
    | ok x0 =>
      rw [hp] at hxs
      cases hv : validateRows m (i + 1) pre' with
      | error e' => rw [hv] at hxs; simp at hxs
      | ok xs' =>
        have herr' : processRow m ((i + 1) + pre'.length) rec = .error e := by
          have heq : (i + 1) + pre'.length = i + (r0 :: pre').length := by
            simp [List.length_cons]; omega
          rw [heq]; exact herr
        have hrec := ih (i + 1) rec post e ⟨xs', hv⟩ herr'
        rw [List.cons_append]
        simp only [validateRows]
        rw [hp, hrec]

/-- Claim C6: the validator's error reporting.  A required column is missing
exactly when no header matches it case-insensitively, and then validation
fails with a message naming exactly the missing columns; a record whose
retention-time (resp. intensity) cell does not parse, or whose metabolite
cell is not a non-empty string, fails with a message naming the offending
1-based row index; and the first such failing record aborts the whole
validation with exactly that message. -/
theorem validateData_error_reporting :
    (∀ (data : List CsvRecord) (c : String),
      c ∈ missingColumns data ↔
        c ∈ requiredColumns ∧ jsToLower c ∉ (headersOf data).map jsToLower) ∧
    (∀ data, data ≠ [] → missingColumns data ≠ [] →
      validateData data = .error
        ("Missing required columns: " ++ String.intercalate ", " (missingColumns data))) ∧
    (∀ (m : ColumnMapping) (i : ℕ) (rec : CsvRecord),
      jsParseFloat (getCellOpt rec m.retentionTime) = none →
      processRow m i rec = .error s!"Row {i + 1}: Invalid retention time at row {i + 1}") ∧
    (∀ (m : ColumnMapping) (i : ℕ) (rec : CsvRecord) (rt : ℚ),
      jsParseFloat (getCellOpt rec m.retentionTime) = some rt →
      jsParseFloat (getCellOpt rec m.intensity) = none →
      processRow m i rec = .error s!"Row {i + 1}: Invalid intensity value at row {i + 1}") ∧
    (∀ (m : ColumnMapping) (i : ℕ) (rec : CsvRecord) (rt inten : ℚ),
      jsParseFloat (getCellOpt rec m.retentionTime) = some rt →
      jsParseFloat (getCellOpt rec m.intensity) = some inten →
      ((∀ s, getCellOpt rec m.metabolite ≠ .str s) ∨ getCellOpt rec m.metabolite = .str "") →
      processRow m i rec =
        .error s!"Row {i + 1}: Invalid or missing metabolite name at row {i + 1}") ∧
    (∀ (pre : List CsvRecord) (rec : CsvRecord) (post : List CsvRecord) (e : String),
      missingColumns (pre ++ rec :: post) = [] →
      (∃ xs, validateRows (columnMapping (pre ++ rec :: post)) 0 pre = .ok xs) →
      processRow (columnMapping (pre ++ rec :: post)) pre.length rec = .error e →
      validateData (pre ++ rec :: post) = .error e) := by
  refine ⟨fun data c => ?_, fun data hne hmiss => ?_, fun m i rec hrt => ?_,
    fun m i rec rt hrt hint => ?_, fun m i rec rt inten hrt hint hbad => ?_,
    fun pre rec post e hmiss hok herr => ?_⟩
  · simp [missingColumns, List.mem_filter]
  · unfold validateData
    rw [if_neg (by simpa [List.isEmpty_iff] using hne), if_pos hmiss]
  · simp [processRow, hrt]
  · simp [processRow, hrt, hint]
  · rcases hbad with hns | hempty
    · cases hc : getCellOpt rec m.metabolite with
      | num q => simp [processRow, hrt, hint, hc]
      | str s => exact absurd hc (hns s)
      | nullv => simp [processRow, hrt, hint, hc]
    · simp [processRow, hrt, hint, hempty]
  · unfold validateData
    rw [if_neg (by simp [List.isEmpty_iff]), if_neg (by simp [hmiss])]
    exact validateRows_first_error (columnMapping (pre ++ rec :: post)) pre 0 rec post e
      hok (by simp only [Nat.zero_add]; exact herr)

/-- Witness for C6: a concrete CSV missing the Intensity column, and a
concrete CSV whose second record has a non-numeric retention time. -/
theorem validateData_error_reporting_witness :
    validateData [[("Metabolite", CellValue.str "A"), ("RetentionTime", CellValue.num 1)]] =
      .error "Missing required columns: Intensity" ∧
    validateData
        [[("Metabolite", CellValue.str "A"), ("RetentionTime", CellValue.num 1),
          ("Intensity", CellValue.num 2)],
         [("Metabolite", CellValue.str "B"), ("RetentionTime", CellValue.str "oops"),
          ("Intensity", CellValue.num 4)]] =
      .error "Row 2: Invalid retention time at row 2" := by
  constructor
  · have h := validateData_error_reporting.2.1
      [[("Metabolite", CellValue.str "A"), ("RetentionTime", CellValue.num 1)]]
      (by decide) (by decide)
    exact h.trans (by decide)
  · have h := validateData_error_reporting.2.2.2.2.2
      [[("Metabolite", CellValue.str "A"), ("RetentionTime", CellValue.num 1),
        ("Intensity", CellValue.num 2)]]
      [("Metabolite", CellValue.str "B"), ("RetentionTime", CellValue.str "oops"),
        ("Intensity", CellValue.num 4)]
      [] "Row 2: Invalid retention time at row 2" (by decide)
      ⟨[{ name := "A", retentionTime := 1, intensity := 2, additionalData := [] }], by decide⟩
      (by decide)
    exact h

theorem updateGroup_keys_mem {acc : List (String × List ℚ)} {n : String} (v : ℚ)
    (h : n ∈ acc.map Prod.fst) :
    (updateGroup acc n v).map Prod.fst = acc.map Prod.fst := by
  induction acc with
  | nil => simp at h
  | cons kv t ih =>
    obtain ⟨k, vs⟩ := kv
    by_cases hk : k = n
    · subst hk; simp [updateGroup]
    · simp only [List.map_cons, List.mem_cons] at h
      rcases h with h | h
    
      · exact absurd h.symm hk
      · simp [updateGroup, hk, ih h]

theorem updateGroup_keys_new {acc : List (String × List ℚ)} {n : String} (v : ℚ)
    (h : n ∉ acc.map Prod.fst) :
    (updateGroup acc n v).map Prod.fst = acc.map Prod.fst ++ [n] := by
  induction acc with
  | nil => simp [updateGroup]
  | cons kv t ih =>
    obtain ⟨k, vs⟩ := kv
    simp only [List.map_cons, List.mem_cons] at h
    push_neg at h
    simp [updateGroup, Ne.symm h.1, ih h.2]

theorem foldl_updateGroup_keys (l : List MeasurementRow) :
    ∀ acc : List (String × List ℚ),
      ((l.foldl (fun acc r => updateGroup acc r.name r.intensity) acc).map Prod.fst) =
        acc.map Prod.fst ++
          dedupFirst ((l.map (·.name)).filter fun n => decide (n ∉ acc.map Prod.fst)) := by
  induction l with
  | nil => intro acc; simp [dedupFirst]
  | cons r l' ih =>
    intro acc
    simp only [List.foldl_cons, List.map_cons]
    by_cases hmem : r.name ∈ acc.map Prod.fst
    · rw [ih, updateGroup_keys_mem r.intensity hmem,
        List.filter_cons_of_neg (by simpa using hmem)]
    · have hkeys := updateGroup_keys_new r.intensity hmem
      have hfilt : ∀ names : List String,
          names.filter (fun n => decide (n ∉ acc.map Prod.fst ++ [r.name])) =
            (names.filter fun n => decide (n ∉ acc.map Prod.fst)).filter
              fun y => decide ¬(y = r.name) := by
        intro names
        rw [List.filter_filter]
        apply List.filter_congr
        intro x _
        by_cases h1 : x ∈ acc.map Prod.fst <;> by_cases h2 : x = r.name <;>
          simp [h1, h2]
      rw [ih, hkeys, List.filter_cons_of_pos (by simpa using hmem), dedupFirst, hfilt]
      simp

theorem lookupGroup_updateGroup (acc : List (String × List ℚ)) (n n' : String) (v : ℚ) :
    lookupGroup (updateGroup acc n v) n' =
      if n = n' then lookupGroup acc n' ++ [v] else lookupGroup acc n' := by
  induction acc with
  | nil => by_cases h : n = n' <;> simp [updateGroup, lookupGroup, h]
  | cons kv t ih =>
    obtain ⟨k, vs⟩ := kv
    by_cases hk : k = n
    · subst hk
      by_cases h' : k = n' <;> simp [updateGroup, lookupGroup, h']
    · by_cases h' : k = n'
      · subst h'
        have : ¬(n = k) := fun h => hk h.symm
        simp [updateGroup, lookupGroup, hk, this]
      · simp [updateGroup, lookupGroup, hk, h', ih]

theorem groupIntensities_cons (r : MeasurementRow) (l : List MeasurementRow) (n : String) :
    groupIntensities (r :: l) n =
      if r.name = n then r.intensity :: groupIntensities l n else groupIntensities l n := by
  by_cases h : r.name = n <;> simp [groupIntensities, List.filter_cons, h]

theorem lookupGroup_foldl (l : List MeasurementRow) :
    ∀ (acc : List (String × List ℚ)) (n : String),
      lookupGroup (l.foldl (fun acc r => updateGroup acc r.name r.intensity) acc) n =
        lookupGroup acc n ++ groupIntensities l n := by
  induction l with
  | nil => intro acc n; simp [groupIntensities]
  | cons r l' ih =>
    intro acc n
    simp only [List.foldl_cons]
    rw [ih, lookupGroup_updateGroup, groupIntensities_cons]
    by_cases h : r.name = n <;> simp [h]

theorem foldl_updateGroup_nodup (l : List MeasurementRow) :
    ∀ acc : List (String × List ℚ), (acc.map Prod.fst).Nodup →
      ((l.foldl (fun acc r => updateGroup acc r.name r.intensity) acc).map Prod.fst).Nodup := by
  induction l with
  | nil => intro acc h; simpa using h
  | cons r l' ih =>
    intro acc h
    simp only [List.foldl_cons]
    apply ih
    by_cases hmem : r.name ∈ acc.map Prod.fst
    · rwa [updateGroup_keys_mem r.intensity hmem]
    · rw [updateGroup_keys_new r.intensity hmem]
      exact List.Nodup.append h (List.nodup_singleton _)
        (fun x hx hx' => hmem ((List.mem_singleton.mp hx') ▸ hx))

theorem map_eq_map_lookupGroup (f : List ℚ → ℚ) :
    ∀ groups : List (String × List ℚ), (groups.map Prod.fst).Nodup →
      groups.map (fun g => f g.2) =
        (groups.map Prod.fst).map fun n => f (lookupGroup groups n) := by
  intro groups
  induction groups with
  | nil => simp
  | cons g t ih =>
    intro hnd
    obtain ⟨k, vs⟩ := g
    simp only [List.map_cons]
    have hnd2 : (k :: t.map Prod.fst).Nodup := hnd
    have hnd' := List.nodup_cons.mp hnd2
    congr 1
    · simp [lookupGroup]
    · rw [ih hnd'.2]
      apply List.map_congr_left
      intro n hn
      have hkn : ¬(k = n) := fun h => hnd'.1 (h ▸ hn)
      simp [lookupGroup, hkn]

/-- Claim C5: `extractMassSpectraData` emits, for each metabolite name in
first-seen order, the arithmetic mean of the intensities of that name's rows;
a name with intensities 10, 20, 30 gets exactly 20. -/
theorem extractMassSpectraData_correct :
    (∀ data, (extractMassSpectraData data).metabolites =
      dedupFirst (data.map (·.name))) ∧
    (∀ data, (extractMassSpectraData data).intensities =
      (dedupFirst (data.map (·.name))).map fun n =>
        (groupIntensities data n).sum / ((groupIntensities data n).length : ℚ)) ∧
    extractMassSpectraData
        [{ name := "X", retentionTime := 1, intensity := 10, additionalData := [] },
         { name := "X", retentionTime := 2, intensity := 20, additionalData := [] },
         { name := "X", retentionTime := 3, intensity := 30, additionalData := [] }] =
      { metabolites := ["X"], intensities := [20] } := by
  have hkeys : ∀ data : List MeasurementRow,
      (intensityMap data).map Prod.fst = dedupFirst (data.map (·.name)) := by
    intro data
    rw [intensityMap, foldl_updateGroup_keys]
    simp
  refine ⟨fun data => hkeys data, fun data => ?_, ?_⟩
  · have hnd : ((intensityMap data).map Prod.fst).Nodup :=
      foldl_updateGroup_nodup data [] (by simp)
    have hm := map_eq_map_lookupGroup (fun vs => vs.sum / (vs.length : ℚ))
      (intensityMap data) hnd
    show (intensityMap data).map (fun g => g.2.sum / (g.2.length : ℚ)) = _
    rw [hm, hkeys data]
    apply List.map_congr_left
    intro n _
    have hl := lookupGroup_foldl data [] n
    simp only [lookupGroup] at hl
    rw [show lookupGroup (intensityMap data) n = groupIntensities data n from by
      rw [intensityMap]; rw [hl]; simp]
  · norm_num [extractMassSpectraData, intensityMap, updateGroup]

theorem filter_orderedInsert_key (a : MeasurementRow) (l : List MeasurementRow) (q : ℚ) :
    (List.orderedInsert retentionLE a l).filter (fun r => decide (r.retentionTime = q)) =
      if a.retentionTime = q
        then a :: l.filter (fun r => decide (r.retentionTime = q))
        else l.filter fun r => decide (r.retentionTime = q) := by
  induction l with
  | nil => by_cases hq : a.retentionTime = q <;> simp [List.orderedInsert, hq]
  | cons b t ih =>
    by_cases hab : retentionLE a b
    · by_cases hq : a.retentionTime = q <;>
        simp [List.orderedInsert, hab, List.filter_cons, hq]
    · have hb : b.retentionTime < a.retentionTime := not_le.mp hab
      simp only [List.orderedInsert, if_neg hab]
      by_cases hq : a.retentionTime = q
      · have hbq : ¬(b.retentionTime = q) := by rw [← hq]; exact ne_of_lt hb
        simp [List.filter_cons, hbq, ih, hq]
      · by_cases hbq : b.retentionTime = q <;>
          simp [List.filter_cons, hbq, ih, hq]

theorem filter_sortedByRetentionTime (d : List MeasurementRow) (q : ℚ) :
    (sortedByRetentionTime d).filter (fun r => decide (r.retentionTime = q)) =
      d.filter fun r => decide (r.retentionTime = q) := by
  induction d with
  | nil => rfl
  | cons a d' ih =>
    show (List.orderedInsert retentionLE a
        (List.insertionSort retentionLE d')).filter _ = _
    rw [filter_orderedInsert_key]
    by_cases hq : a.retentionTime = q <;>
      simp [List.filter_cons, hq, ih, sortedByRetentionTime] at *

theorem sortedByRetentionTime_perm (d : List MeasurementRow) :
    (sortedByRetentionTime d).Perm d :=
  List.perm_insertionSort retentionLE d

theorem sortedByRetentionTime_eq_of_perm {d d' : List MeasurementRow}
    (hp : d'.Perm d)
    (hd : d.Pairwise fun a b => a.retentionTime ≠ b.retentionTime) :
    sortedByRetentionTime d' = sortedByRetentionTime d := by
  have hsym : ∀ {x y : MeasurementRow},
      x.retentionTime ≠ y.retentionTime → y.retentionTime ≠ x.retentionTime :=
    fun h => h.symm
  have hd' : d'.Pairwise fun a b => a.retentionTime ≠ b.retentionTime :=
    (List.Perm.pairwise_iff hsym hp).mpr hd
  have hne1 : (sortedByRetentionTime d).Pairwise
      fun a b => a.retentionTime ≠ b.retentionTime :=
    (List.Perm.pairwise_iff hsym (sortedByRetentionTime_perm d)).mpr hd
  have hne2 : (sortedByRetentionTime d').Pairwise
      fun a b => a.retentionTime ≠ b.retentionTime :=
    (List.Perm.pairwise_iff hsym (sortedByRetentionTime_perm d')).mpr hd'
  have hsort1 : (sortedByRetentionTime d).Pairwise retentionLE :=
    List.sorted_insertionSort retentionLE d
  have hsort2 : (sortedByRetentionTime d').Pairwise retentionLE :=
    List.sorted_insertionSort retentionLE d'
  have hlt1 : (sortedByRetentionTime d).Pairwise
      (fun a b => a.retentionTime < b.retentionTime) :=
    (hsort1.and hne1).imp fun h => lt_of_le_of_ne h.1 h.2
  have hlt2 : (sortedByRetentionTime d').Pairwise
      (fun a b => a.retentionTime < b.retentionTime) :=
    (hsort2.and hne2).imp fun h => lt_of_le_of_ne h.1 h.2
  haveI : IsAntisymm MeasurementRow (fun a b => a.retentionTime < b.retentionTime) :=
    ⟨fun _ _ h1 h2 => (lt_asymm h1 h2).elim⟩
  exact List.eq_of_perm_of_sorted
    ((sortedByRetentionTime_perm d').trans (hp.trans (sortedByRetentionTime_perm d).symm))
    hlt2 hlt1

/-- Claim C4, counterexample: with two rows sharing a retention time, the
stable sort keeps the input order of the tie, so the two orderings of the same
row multiset produce different intensity/label arrays — the output is not
invariant under permutation of the input. -/
theorem extractChromatogramData_not_perm_invariant :
    ([{ name := "B", retentionTime := 1, intensity := 20, additionalData := [] },
      { name := "A", retentionTime := 1, intensity := 10, additionalData := [] }] :
        List MeasurementRow).Perm
      [{ name := "A", retentionTime := 1, intensity := 10, additionalData := [] },
       { name := "B", retentionTime := 1, intensity := 20, additionalData := [] }] ∧
    extractChromatogramData
        [{ name := "B", retentionTime := 1, intensity := 20, additionalData := [] },
         { name := "A", retentionTime := 1, intensity := 10, additionalData := [] }] ≠
      extractChromatogramData
        [{ name := "A", retentionTime := 1, intensity := 10, additionalData := [] },
         { name := "B", retentionTime := 1, intensity := 20, additionalData := [] }] :=
  ⟨List.Perm.swap _ _ _, by decide⟩

/-- Claim C4, amended: the chromatogram series is sorted non-decreasing by
retention time, ties keep the original relative input order (the rows at any
fixed retention time appear exactly as in the input), and the times array is
invariant under any permutation of the input rows; the full output (times,
intensities and labels) is permutation-invariant provided the retention times
are pairwise distinct — with ties it need not be. -/
theorem extractChromatogramData_sorted_stable :
    (∀ d, List.Pairwise (· ≤ ·) (extractChromatogramData d).times) ∧
    (∀ (d : List MeasurementRow) (q : ℚ),
      (sortedByRetentionTime d).filter (fun r => decide (r.retentionTime = q)) =
        d.filter fun r => decide (r.retentionTime = q)) ∧
    (∀ d d' : List MeasurementRow, d'.Perm d →
      (extractChromatogramData d').times = (extractChromatogramData d).times) ∧
    (∀ d d' : List MeasurementRow, d'.Perm d →
      (d.Pairwise fun a b => a.retentionTime ≠ b.retentionTime) →
      extractChromatogramData d' = extractChromatogramData d) := by
  refine ⟨fun d => ?_, filter_sortedByRetentionTime, fun d d' hp => ?_, fun d d' hp hd => ?_⟩
  · exact List.Pairwise.map _ (fun a b h => h)
      (List.sorted_insertionSort retentionLE d)
  · have hperm : ((sortedByRetentionTime d').map (·.retentionTime)).Perm
        ((sortedByRetentionTime d).map (·.retentionTime)) :=
      ((sortedByRetentionTime_perm d').map _).trans
        ((hp.map _).trans ((sortedByRetentionTime_perm d).map _).symm)
    have hs1 : ((sortedByRetentionTime d).map (·.retentionTime)).Pairwise (· ≤ ·) :=
      List.Pairwise.map _ (fun a b h => h) (List.sorted_insertionSort retentionLE d)
    have hs2 : ((sortedByRetentionTime d').map (·.retentionTime)).Pairwise (· ≤ ·) :=
      List.Pairwise.map _ (fun a b h => h) (List.sorted_insertionSort retentionLE d')
    exact List.eq_of_perm_of_sorted hperm hs2 hs1
  · show extractChromatogramData d' = extractChromatogramData d
    unfold extractChromatogramData
    rw [sortedByRetentionTime_eq_of_perm hp hd]

/-- Witness for the amended C4: swapping two rows with distinct retention
times leaves the whole chromatogram output unchanged. -/
theorem extractChromatogramData_sorted_stable_witness :
    extractChromatogramData
        [{ name := "B", retentionTime := 2, intensity := 20, additionalData := [] },
         { name := "A", retentionTime := 1, intensity := 10, additionalData := [] }] =
      extractChromatogramData
        [{ name := "A", retentionTime := 1, intensity := 10, additionalData := [] },
         { name := "B", retentionTime := 2, intensity := 20, additionalData := [] }] :=
  extractChromatogramData_sorted_stable.2.2.2 _ _ (List.Perm.swap _ _ _) (by decide)

theorem ne_of_head_ne {s t : String} (h : s.data.head? ≠ t.data.head?) : s ≠ t :=
  fun hc => h (by rw [hc])

theorem addNode_edges (g : Graph) (n : NodeData) : (addNode g n).edges = g.edges := by
  unfold addNode; split <;> rfl

theorem addEdge_nodes (g : Graph) (e : EdgeData) : (addEdge g e).nodes = g.nodes := by
  unfold addEdge; split <;> rfl

theorem addNode_nodes (g : Graph) (n : NodeData) :
    ∃ ns, (addNode g n).nodes = g.nodes ++ ns ∧ ∀ x ∈ ns, x = n := by
  unfold addNode; split
  · exact ⟨[], by simp⟩
  · exact ⟨[n], by simp⟩

theorem addEdge_edges (g : Graph) (e : EdgeData) :
    ∃ es, (addEdge g e).edges = g.edges ++ es ∧ ∀ x ∈ es, x = e := by
  unfold addEdge; split
  · exact ⟨[], by simp⟩
  · exact ⟨[e], by simp⟩

theorem elementIds_addNode_sub (g : Graph) (n : NodeData) :
    elementIds g ⊆ elementIds (addNode g n) := by
  unfold addNode; split
  · exact fun x hx => hx
  · intro x hx
    simp only [elementIds, List.map_append, List.mem_append] at hx ⊢
    rcases hx with hx | hx
    · exact Or.inl (Or.inl hx)
    · exact Or.inr hx

theorem elementIds_addEdge_sub (g : Graph) (e : EdgeData) :
    elementIds g ⊆ elementIds (addEdge g e) := by
  unfold addEdge; split
  · exact fun x hx => hx
  · intro x hx
    simp only [elementIds, List.map_append, List.mem_append] at hx ⊢
    rcases hx with hx | hx
    · exact Or.inl hx
    · exact Or.inr (Or.inl hx)

theorem mem_elementIds_addNode (g : Graph) (n : NodeData) :
    n.id ∈ elementIds (addNode g n) := by
  unfold addNode; split
  · assumption
  · simp [elementIds]

theorem mem_elementIds_addEdge (g : Graph) (e : EdgeData) :
    e.id ∈ elementIds (addEdge g e) := by
  unfold addEdge; split
  · assumption
  · simp [elementIds]

theorem addNode_noop {g : Graph} {n : NodeData} (h : n.id ∈ elementIds g) :
    addNode g n = g := by
  simp [addNode, h]

theorem addEdge_noop {g : Graph} {e : EdgeData} (h : e.id ∈ elementIds g) :
    addEdge g e = g := by
  simp [addEdge, h]

theorem addReactionStep_nodes (met : String) (g : Graph) (p : ℕ × String) :
    ∃ ns, (addReactionStep met g p).nodes = g.nodes ++ ns ∧
      ∀ x ∈ ns, ∃ s, x.id = "r_" ++ s := by
  obtain ⟨ns, hns, hall⟩ :=
    addNode_nodes g { id := "r_" ++ met ++ "_" ++ toString p.1, label := p.2, type := .reaction }
  refine ⟨ns, ?_, fun x hx => ⟨met ++ "_" ++ toString p.1, ?_⟩⟩
  · show (addEdge _ _).nodes = _
    rw [addEdge_nodes, hns]
  · rw [hall x hx]
    simp [String.append_assoc]

theorem addReactionStep_edges (met : String) (g : Graph) (p : ℕ × String) :
    ∃ es, (addReactionStep met g p).edges = g.edges ++ es ∧
      ∀ x ∈ es, ∃ s, x.target = "r_" ++ s := by
  obtain ⟨es, hes, hall⟩ := addEdge_edges
    (addNode g { id := "r_" ++ met ++ "_" ++ toString p.1, label := p.2, type := .reaction })
    { id := "e_" ++ met ++ "_reaction_" ++ toString p.1
      source := "m_" ++ met
      target := "r_" ++ met ++ "_" ++ toString p.1
      label := "participates in" }
  refine ⟨es, ?_, fun x hx => ⟨met ++ "_" ++ toString p.1, ?_⟩⟩
  · show (addEdge _ _).edges = _
    rw [hes, addNode_edges]
  · rw [hall x hx]
    simp [String.append_assoc]

theorem foldl_reaction_nodes (met : String) (l : List (ℕ × String)) :
    ∀ g : Graph, ∃ ns, (l.foldl (addReactionStep met) g).nodes = g.nodes ++ ns ∧
      ∀ x ∈ ns, ∃ s, x.id = "r_" ++ s := by
  induction l with
  | nil => intro g; exact ⟨[], by simp⟩
  | cons p l' ih =>
    intro g
    obtain ⟨ns1, h1, ha1⟩ := addReactionStep_nodes met g p
    obtain ⟨ns2, h2, ha2⟩ := ih (addReactionStep met g p)
    refine ⟨ns1 ++ ns2, ?_, fun x hx => ?_⟩
    · simp only [List.foldl_cons]
      rw [h2, h1, List.append_assoc]
    · rcases List.mem_append.mp hx with h | h
      exacts [ha1 x h, ha2 x h]

theorem foldl_reaction_edges (met : String) (l : List (ℕ × String)) :
    ∀ g : Graph, ∃ es, (l.foldl (addReactionStep met) g).edges = g.edges ++ es ∧
      ∀ x ∈ es, ∃ s, x.target = "r_" ++ s := by
  induction l with
  | nil => intro g; exact ⟨[], by simp⟩
  | cons p l' ih =>
    intro g
    obtain ⟨es1, h1, ha1⟩ := addReactionStep_edges met g p
    obtain ⟨es2, h2, ha2⟩ := ih (addReactionStep met g p)
    refine ⟨es1 ++ es2, ?_, fun x hx => ?_⟩
    · simp only [List.foldl_cons]
      rw [h2, h1, List.append_assoc]
    · rcases List.mem_append.mp hx with h | h
      exacts [ha1 x h, ha2 x h]

theorem addPathwayConnections_nodes (g : Graph) (pinfo : PathwayInfo) :
    ∃ ns, (addPathwayConnections g pinfo).nodes = g.nodes ++ ns ∧
      ∀ x ∈ ns, (∃ s, x.id = "p_" ++ s) ∨ ∃ s, x.id = "r_" ++ s := by
  unfold addPathwayConnections
  by_cases hp : pinfo.pathway ≠ ""
  · simp only [if_pos hp]
    by_cases hpid : ("p_" ++ pinfo.pathway) ∈ elementIds g
    · simp only [if_pos hpid]
      obtain ⟨ns2, h2, ha2⟩ := foldl_reaction_nodes pinfo.metabolite pinfo.reactions.enum
        (addEdge g
          { id := "e_" ++ pinfo.metabolite ++ "_" ++ pinfo.pathway
            source := "m_" ++ pinfo.metabolite
            target := "p_" ++ pinfo.pathway
            label := "part of" })
      rw [h2, addEdge_nodes]
      exact ⟨ns2, rfl, fun x hx => Or.inr (ha2 x hx)⟩
    · simp only [if_neg hpid]
      obtain ⟨ns1, h1, ha1⟩ := addNode_nodes g
        { id := "p_" ++ pinfo.pathway, label := pinfo.pathway, type := .pathway }
      obtain ⟨ns2, h2, ha2⟩ := foldl_reaction_nodes pinfo.metabolite pinfo.reactions.enum
        (addEdge
          (addNode g { id := "p_" ++ pinfo.pathway, label := pinfo.pathway, type := .pathway })
          { id := "e_" ++ pinfo.metabolite ++ "_" ++ pinfo.pathway
            source := "m_" ++ pinfo.metabolite
            target := "p_" ++ pinfo.pathway
            label := "part of" })
      rw [h2, addEdge_nodes, h1, List.append_assoc]
      refine ⟨ns1 ++ ns2, rfl, fun x hx => ?_⟩
      rcases List.mem_append.mp hx with h | h
      · exact Or.inl ⟨pinfo.pathway, by rw [ha1 x h]⟩
      · exact Or.inr (ha2 x h)
  · simp only [if_neg hp]
    obtain ⟨ns2, h2, ha2⟩ := foldl_reaction_nodes pinfo.metabolite pinfo.reactions.enum g
    exact ⟨ns2, h2, fun x hx => Or.inr (ha2 x hx)⟩

theorem addPathwayConnections_edges (g : Graph) (pinfo : PathwayInfo) :
    ∃ es, (addPathwayConnections g pinfo).edges = g.edges ++ es ∧
      ∀ x ∈ es, (∃ s, x.target = "p_" ++ s) ∨ ∃ s, x.target = "r_" ++ s := by
  unfold addPathwayConnections
  by_cases hp : pinfo.pathway ≠ ""
  · simp only [if_pos hp]
    by_cases hpid : ("p_" ++ pinfo.pathway) ∈ elementIds g
    · simp only [if_pos hpid]
      obtain ⟨es1, h1, ha1⟩ := addEdge_edges g
        { id := "e_" ++ pinfo.metabolite ++ "_" ++ pinfo.pathway
          source := "m_" ++ pinfo.metabolite
          target := "p_" ++ pinfo.pathway
          label := "part of" }
      obtain ⟨es2, h2, ha2⟩ := foldl_reaction_edges pinfo.metabolite pinfo.reactions.enum _
      rw [h2, h1, List.append_assoc]
      refine ⟨es1 ++ es2, rfl, fun x hx => ?_⟩
      rcases List.mem_append.mp hx with h | h
      · exact Or.inl ⟨pinfo.pathway, by rw [ha1 x h]⟩
      · exact Or.inr (ha2 x h)
    · simp only [if_neg hpid]
      obtain ⟨es1, h1, ha1⟩ := addEdge_edges
        (addNode g { id := "p_" ++ pinfo.pathway, label := pinfo.pathway, type := .pathway })
        { id := "e_" ++ pinfo.metabolite ++ "_" ++ pinfo.pathway
          source := "m_" ++ pinfo.metabolite
          target := "p_" ++ pinfo.pathway
          label := "part of" }
      obtain ⟨es2, h2, ha2⟩ := foldl_reaction_edges pinfo.metabolite pinfo.reactions.enum _
      rw [h2, h1, addNode_edges, List.append_assoc]
      refine ⟨es1 ++ es2, rfl, fun x hx => ?_⟩
      rcases List.mem_append.mp hx with h | h
      · exact Or.inl ⟨pinfo.pathway, by rw [ha1 x h]⟩
      · exact Or.inr (ha2 x h)
  · simp only [if_neg hp]
    obtain ⟨es2, h2, ha2⟩ := foldl_reaction_edges pinfo.metabolite pinfo.reactions.enum g
    exact ⟨es2, h2, fun x hx => Or.inr (ha2 x hx)⟩

theorem elementIds_addReactionStep_sub (met : String) (g : Graph) (p : ℕ × String) :
    elementIds g ⊆ elementIds (addReactionStep met g p) :=
  fun _ hx => elementIds_addEdge_sub _ _ (elementIds_addNode_sub _ _ hx)

theorem addReactionStep_noop {met : String} {g : Graph} {p : ℕ × String}
    (h1 : ("r_" ++ met ++ "_" ++ toString p.1) ∈ elementIds g)
    (h2 : ("e_" ++ met ++ "_reaction_" ++ toString p.1) ∈ elementIds g) :
    addReactionStep met g p = g := by
  show addEdge
      (addNode g { id := "r_" ++ met ++ "_" ++ toString p.1, label := p.2, type := .reaction })
      { id := "e_" ++ met ++ "_reaction_" ++ toString p.1
        source := "m_" ++ met
        target := "r_" ++ met ++ "_" ++ toString p.1
        label := "participates in" } = g
  rw [addNode_noop h1, addEdge_noop h2]

theorem addReactionStep_mem (met : String) (g : Graph) (p : ℕ × String) :
    ("r_" ++ met ++ "_" ++ toString p.1) ∈ elementIds (addReactionStep met g p) ∧
    ("e_" ++ met ++ "_reaction_" ++ toString p.1) ∈ elementIds (addReactionStep met g p) :=
  ⟨elementIds_addEdge_sub _ _ (mem_elementIds_addNode _ _),
   mem_elementIds_addEdge _ _⟩

theorem elementIds_foldl_reaction_sub (met : String) (l : List (ℕ × String)) :
    ∀ g : Graph, elementIds g ⊆ elementIds (l.foldl (addReactionStep met) g) := by
  induction l with
  | nil => intro g; exact fun _ hx => hx
  | cons p l' ih =>
    intro g x hx
    exact ih (addReactionStep met g p) (elementIds_addReactionStep_sub met g p hx)

theorem foldl_reaction_mem (met : String) (l : List (ℕ × String)) :
    ∀ (g : Graph), ∀ p ∈ l,
      ("r_" ++ met ++ "_" ++ toString p.1) ∈ elementIds (l.foldl (addReactionStep met) g) ∧
      ("e_" ++ met ++ "_reaction_" ++ toString p.1) ∈
        elementIds (l.foldl (addReactionStep met) g) := by
  induction l with
  | nil => intro g p hp; simp at hp
  | cons p0 l' ih =>
    intro g p hp
    rcases List.mem_cons.mp hp with rfl | hp'
    · obtain ⟨h1, h2⟩ := addReactionStep_mem met g p
      exact ⟨elementIds_foldl_reaction_sub met l' _ h1,
        elementIds_foldl_reaction_sub met l' _ h2⟩
    · exact ih (addReactionStep met g p0) p hp'

theorem foldl_reaction_noop (met : String) (l : List (ℕ × String)) :
    ∀ g : Graph,
      (∀ p ∈ l, ("r_" ++ met ++ "_" ++ toString p.1) ∈ elementIds g ∧
        ("e_" ++ met ++ "_reaction_" ++ toString p.1) ∈ elementIds g) →
      l.foldl (addReactionStep met) g = g := by
  induction l with
  | nil => intro g _; rfl
  | cons p0 l' ih =>
    intro g h
    obtain ⟨h1, h2⟩ := h p0 (List.mem_cons_self _ _)
    simp only [List.foldl_cons]
    rw [addReactionStep_noop h1 h2]
    exact ih g fun p hp => h p (List.mem_cons_of_mem _ hp)

theorem elementIds_addPathwayConnections_sub (g : Graph) (pinfo : PathwayInfo) :
    elementIds g ⊆ elementIds (addPathwayConnections g pinfo) := by
  unfold addPathwayConnections
  by_cases hp : pinfo.pathway ≠ ""
  · simp only [if_pos hp]
    by_cases hpid : ("p_" ++ pinfo.pathway) ∈ elementIds g
    · simp only [if_pos hpid]
      exact fun x hx => elementIds_foldl_reaction_sub _ _ _
        (elementIds_addEdge_sub _ _ hx)
    · simp only [if_neg hpid]
      exact fun x hx => elementIds_foldl_reaction_sub _ _ _
        (elementIds_addEdge_sub _ _ (elementIds_addNode_sub _ _ hx))
  · simp only [if_neg hp]
    exact elementIds_foldl_reaction_sub _ _ _

theorem addPathwayConnections_mem (g : Graph) (pinfo : PathwayInfo) :
    (pinfo.pathway ≠ "" →
      ("p_" ++ pinfo.pathway) ∈ elementIds (addPathwayConnections g pinfo) ∧
      ("e_" ++ pinfo.metabolite ++ "_" ++ pinfo.pathway) ∈
        elementIds (addPathwayConnections g pinfo)) ∧
    (∀ p ∈ pinfo.reactions.enum,
      ("r_" ++ pinfo.metabolite ++ "_" ++ toString p.1) ∈
        elementIds (addPathwayConnections g pinfo) ∧
      ("e_" ++ pinfo.metabolite ++ "_reaction_" ++ toString p.1) ∈
        elementIds (addPathwayConnections g pinfo)) := by
  unfold addPathwayConnections
  by_cases hp : pinfo.pathway ≠ ""
  · simp only [if_pos hp]
    by_cases hpid : ("p_" ++ pinfo.pathway) ∈ elementIds g
    · simp only [if_pos hpid]
      refine ⟨fun _ => ⟨?_, ?_⟩, fun p hp' => foldl_reaction_mem _ _ _ p hp'⟩
      · exact elementIds_foldl_reaction_sub _ _ _ (elementIds_addEdge_sub _ _ hpid)
      · exact elementIds_foldl_reaction_sub _ _ _ (mem_elementIds_addEdge _ _)
    · simp only [if_neg hpid]
      refine ⟨fun _ => ⟨?_, ?_⟩, fun p hp' => foldl_reaction_mem _ _ _ p hp'⟩
      · exact elementIds_foldl_reaction_sub _ _ _
          (elementIds_addEdge_sub _ _ (mem_elementIds_addNode _ _))
      · exact elementIds_foldl_reaction_sub _ _ _ (mem_elementIds_addEdge _ _)
  · simp only [if_neg hp]
    exact ⟨fun hc => absurd hc hp, fun p hp' => foldl_reaction_mem _ _ _ p hp'⟩

theorem addPathwayConnections_noop {g : Graph} {pinfo : PathwayInfo}
    (hpath : pinfo.pathway ≠ "" →
      ("p_" ++ pinfo.pathway) ∈ elementIds g ∧
      ("e_" ++ pinfo.metabolite ++ "_" ++ pinfo.pathway) ∈ elementIds g)
    (hre : ∀ p ∈ pinfo.reactions.enum,
      ("r_" ++ pinfo.metabolite ++ "_" ++ toString p.1) ∈ elementIds g ∧
      ("e_" ++ pinfo.metabolite ++ "_reaction_" ++ toString p.1) ∈ elementIds g) :
    addPathwayConnections g pinfo = g := by
  unfold addPathwayConnections
  by_cases hp : pinfo.pathway ≠ ""
  · obtain ⟨h1, h2⟩ := hpath hp
    simp only [if_pos hp, if_pos h1]
    rw [addEdge_noop h2]
    exact foldl_reaction_noop _ _ g hre
  · simp only [if_neg hp]
    exact foldl_reaction_noop _ _ g hre

theorem addMetaboliteToPathway_mem (g : Graph) (met gene : String)
    (pinfo : Option PathwayInfo) :
    ("m_" ++ met) ∈ elementIds (addMetaboliteToPathway g met gene pinfo) ∧
    ("g_" ++ gene) ∈ elementIds (addMetaboliteToPathway g met gene pinfo) ∧
    ("e_" ++ met ++ "_" ++ gene) ∈ elementIds (addMetaboliteToPathway g met gene pinfo) ∧
    ∀ pi, pinfo = some pi →
      (pi.pathway ≠ "" →
        ("p_" ++ pi.pathway) ∈ elementIds (addMetaboliteToPathway g met gene pinfo) ∧
        ("e_" ++ pi.metabolite ++ "_" ++ pi.pathway) ∈
          elementIds (addMetaboliteToPathway g met gene pinfo)) ∧
      ∀ p ∈ pi.reactions.enum,
        ("r_" ++ pi.metabolite ++ "_" ++ toString p.1) ∈
          elementIds (addMetaboliteToPathway g met gene pinfo) ∧
        ("e_" ++ pi.metabolite ++ "_reaction_" ++ toString p.1) ∈
          elementIds (addMetaboliteToPathway g met gene pinfo) := by
  cases pinfo with
  | none =>
    refine ⟨?_, ?_, ?_, fun pi hpi => by simp at hpi⟩
    · exact elementIds_addEdge_sub _ _
        (elementIds_addNode_sub _ _ (mem_elementIds_addNode _ _))
    · exact elementIds_addEdge_sub _ _ (mem_elementIds_addNode _ _)
    · exact mem_elementIds_addEdge _ _
  | some pi =>
    refine ⟨?_, ?_, ?_, fun pi' hpi => ?_⟩
    · exact elementIds_addPathwayConnections_sub _ _ (elementIds_addEdge_sub _ _
        (elementIds_addNode_sub _ _ (mem_elementIds_addNode _ _)))
    · exact elementIds_addPathwayConnections_sub _ _
        (elementIds_addEdge_sub _ _ (mem_elementIds_addNode _ _))
    · exact elementIds_addPathwayConnections_sub _ _ (mem_elementIds_addEdge _ _)
    · have hpp : pi' = pi := by injection hpi with h; exact h.symm
      rw [hpp]
      exact addPathwayConnections_mem _ pi

theorem addMetaboliteToPathway_noop {g : Graph} {met gene : String}
    {pinfo : Option PathwayInfo}
    (hm : ("m_" ++ met) ∈ elementIds g)
    (hg : ("g_" ++ gene) ∈ elementIds g)
    (he : ("e_" ++ met ++ "_" ++ gene) ∈ elementIds g)
    (hpi : ∀ pi, pinfo = some pi →
      (pi.pathway ≠ "" → ("p_" ++ pi.pathway) ∈ elementIds g ∧
        ("e_" ++ pi.metabolite ++ "_" ++ pi.pathway) ∈ elementIds g) ∧
      ∀ p ∈ pi.reactions.enum,
        ("r_" ++ pi.metabolite ++ "_" ++ toString p.1) ∈ elementIds g ∧
        ("e_" ++ pi.metabolite ++ "_reaction_" ++ toString p.1) ∈ elementIds g) :
    addMetaboliteToPathway g met gene pinfo = g := by
  cases pinfo with
  | none =>
    show addEdge (addNode (addNode g
        { id := "m_" ++ met, label := met, type := .metabolite })
        { id := "g_" ++ gene, label := gene, type := .gene })
      { id := "e_" ++ met ++ "_" ++ gene
        source := "m_" ++ met
        target := "g_" ++ gene
        label := "associated with" } = g
    rw [addNode_noop hm, addNode_noop hg, addEdge_noop he]
  | some pi =>
    show addPathwayConnections (addEdge (addNode (addNode g
        { id := "m_" ++ met, label := met, type := .metabolite })
        { id := "g_" ++ gene, label := gene, type := .gene })
      { id := "e_" ++ met ++ "_" ++ gene
        source := "m_" ++ met
        target := "g_" ++ gene
        label := "associated with" }) pi = g
    rw [addNode_noop hm, addNode_noop hg, addEdge_noop he]
    exact addPathwayConnections_noop (hpi pi rfl).1 (hpi pi rfl).2

theorem addMetaboliteToPathway_idem (g : Graph) (met gene : String)
    (pinfo : Option PathwayInfo) :
    addMetaboliteToPathway (addMetaboliteToPathway g met gene pinfo) met gene pinfo =
      addMetaboliteToPathway g met gene pinfo := by
  obtain ⟨hm, hg, he, hpi⟩ := addMetaboliteToPathway_mem g met gene pinfo
  exact addMetaboliteToPathway_noop hm hg he hpi

theorem addMetaboliteToPathway_empty (met gene : String) (pinfo : Option PathwayInfo) :
    ∃ ns es,
      (addMetaboliteToPathway emptyGraph met gene pinfo).nodes =
        [{ id := "m_" ++ met, label := met, type := .metabolite },
         { id := "g_" ++ gene, label := gene, type := .gene }] ++ ns ∧
      (addMetaboliteToPathway emptyGraph met gene pinfo).edges =
        [{ id := "e_" ++ met ++ "_" ++ gene, source := "m_" ++ met,
           target := "g_" ++ gene, label := "associated with" }] ++ es ∧
      (∀ x ∈ ns, (∃ s, NodeData.id x = "p_" ++ s) ∨ ∃ s, NodeData.id x = "r_" ++ s) ∧
      (∀ x ∈ es, (∃ s, EdgeData.target x = "p_" ++ s) ∨ ∃ s, EdgeData.target x = "r_" ++ s) := by
  have h1 : addNode emptyGraph { id := "m_" ++ met, label := met, type := .metabolite } =
      { nodes := [{ id := "m_" ++ met, label := met, type := .metabolite }], edges := [] } := by
    simp [addNode, elementIds, NetworkVisualizer.emptyGraph]
  have h2 : addNode
      { nodes := [{ id := "m_" ++ met, label := met, type := ElementType.metabolite }],
        edges := [] }
      { id := "g_" ++ gene, label := gene, type := .gene } =
      { nodes := [{ id := "m_" ++ met, label := met, type := ElementType.metabolite },
                  { id := "g_" ++ gene, label := gene, type := ElementType.gene }],
        edges := [] } := by
    unfold addNode
    rw [if_neg]
    · rfl
    · intro hmem
      simp only [elementIds, List.map_cons, List.map_nil, List.append_nil,
        List.mem_cons, List.not_mem_nil, or_false] at hmem
      exact ne_of_head_ne (by simp [String.data_append]) hmem
  have h3 : addEdge
      { nodes := [{ id := "m_" ++ met, label := met, type := ElementType.metabolite },
                  { id := "g_" ++ gene, label := gene, type := ElementType.gene }],
        edges := [] }
      { id := "e_" ++ met ++ "_" ++ gene, source := "m_" ++ met,
        target := "g_" ++ gene, label := "associated with" } =
      { nodes := [{ id := "m_" ++ met, label := met, type := ElementType.metabolite },
                  { id := "g_" ++ gene, label := gene, type := ElementType.gene }],
        edges := [{ id := "e_" ++ met ++ "_" ++ gene, source := "m_" ++ met,
                    target := "g_" ++ gene, label := "associated with" }] } := by
    unfold addEdge
    rw [if_neg]
    · rfl
    · intro hmem
      simp only [elementIds, List.map_cons, List.map_nil, List.append_nil,
        List.mem_cons, List.not_mem_nil, or_false] at hmem
      rcases hmem with h | h
      · exact ne_of_head_ne (by simp [String.data_append]) h
      · exact ne_of_head_ne (by simp [String.data_append]) h
  cases pinfo with
  | none =>
    refine ⟨[], [], ?_, ?_, by simp, by simp⟩
    · show (addEdge (addNode (addNode emptyGraph _) _) _).nodes = _
      rw [h1, h2, h3]
      simp
    · show (addEdge (addNode (addNode emptyGraph _) _) _).edges = _
      rw [h1, h2, h3]
      simp
  | some pi =>
    have hg3 : addMetaboliteToPathway emptyGraph met gene (some pi) =
        addPathwayConnections
          { nodes := [{ id := "m_" ++ met, label := met, type := ElementType.metabolite },
                      { id := "g_" ++ gene, label := gene, type := ElementType.gene }],
            edges := [{ id := "e_" ++ met ++ "_" ++ gene, source := "m_" ++ met,
                        target := "g_" ++ gene, label := "associated with" }] } pi := by
      show addPathwayConnections (addEdge (addNode (addNode emptyGraph _) _) _) pi = _
      rw [h1, h2, h3]
    obtain ⟨ns, hns, han⟩ := addPathwayConnections_nodes
      { nodes := [{ id := "m_" ++ met, label := met, type := ElementType.metabolite },
                  { id := "g_" ++ gene, label := gene, type := ElementType.gene }],
        edges := [{ id := "e_" ++ met ++ "_" ++ gene, source := "m_" ++ met,
                    target := "g_" ++ gene, label := "associated with" }] } pi
    obtain ⟨es, hes, hae⟩ := addPathwayConnections_edges
      { nodes := [{ id := "m_" ++ met, label := met, type := ElementType.metabolite },
                  { id := "g_" ++ gene, label := gene, type := ElementType.gene }],
        edges := [{ id := "e_" ++ met ++ "_" ++ gene, source := "m_" ++ met,
                    target := "g_" ++ gene, label := "associated with" }] } pi
    exact ⟨ns, es, by rw [hg3, hns], by rw [hg3, hes], han, hae⟩

/-- Claim C8: calling `addMetaboliteToPathway` twice with the same
metabolite/gene pair (and the pathway info the mapper deterministically
returns for that metabolite) leaves exactly one metabolite node, exactly one
gene node, and exactly one edge from the metabolite node to the gene node —
the second call is a no-op, so no duplicate appears. -/
theorem addMetaboliteToPathway_twice_unique (met gene : String)
    (pinfo : Option PathwayInfo) :
    addMetaboliteToPathway (addMetaboliteToPathway emptyGraph met gene pinfo)
        met gene pinfo =
      addMetaboliteToPathway emptyGraph met gene pinfo ∧
    ((addMetaboliteToPathway (addMetaboliteToPathway emptyGraph met gene pinfo)
        met gene pinfo).nodes.filter fun n => decide (n.id = "m_" ++ met)).length = 1 ∧
    ((addMetaboliteToPathway (addMetaboliteToPathway emptyGraph met gene pinfo)
        met gene pinfo).nodes.filter fun n => decide (n.id = "g_" ++ gene)).length = 1 ∧
    ((addMetaboliteToPathway (addMetaboliteToPathway emptyGraph met gene pinfo)
        met gene pinfo).edges.filter fun e =>
          decide (e.source = "m_" ++ met ∧ e.target = "g_" ++ gene)).length = 1 := by
  obtain ⟨ns, es, hn, he, han, hae⟩ := addMetaboliteToPathway_empty met gene pinfo
  have hidem := addMetaboliteToPathway_idem emptyGraph met gene pinfo
  refine ⟨hidem, ?_, ?_, ?_⟩ <;> rw [hidem]
  · rw [hn, List.filter_append]
    have hns : (ns.filter fun n => decide (n.id = "m_" ++ met)) = [] := by
      rw [List.filter_eq_nil_iff]
      intro x hx
      simp only [decide_eq_true_eq]
      rcases han x hx with ⟨s, hs⟩ | ⟨s, hs⟩ <;> rw [hs] <;>
        exact ne_of_head_ne (by simp [String.data_append])
    have hPg : (decide (("g_" ++ gene : String) = "m_" ++ met)) = false :=
      decide_eq_false (ne_of_head_ne (by simp [String.data_append]))
    simp [hns, List.filter_cons, hPg]
  · rw [hn, List.filter_append]
    have hns : (ns.filter fun n => decide (n.id = "g_" ++ gene)) = [] := by
      rw [List.filter_eq_nil_iff]
      intro x hx
      simp only [decide_eq_true_eq]
      rcases han x hx with ⟨s, hs⟩ | ⟨s, hs⟩ <;> rw [hs] <;>
        exact ne_of_head_ne (by simp [String.data_append])
    have hPm : (decide (("m_" ++ met : String) = "g_" ++ gene)) = false :=
      decide_eq_false (ne_of_head_ne (by simp [String.data_append]))
    simp [hns, List.filter_cons, hPm]
  · rw [he, List.filter_append]
    have hes : (es.filter fun e =>
        decide (e.source = "m_" ++ met ∧ e.target = "g_" ++ gene)) = [] := by
      rw [List.filter_eq_nil_iff]
      intro x hx
      simp only [decide_eq_true_eq, not_and]
      intro _
      rcases hae x hx with ⟨s, hs⟩ | ⟨s, hs⟩ <;> rw [hs] <;>
        exact ne_of_head_ne (by simp [String.data_append])
    rw [hes]
    simp [List.filter_cons]
